import Mathlib

/-!
Verification of the rsync-tui program (src/rsync-tui.py) against its
natural-language specification.  Strings are modelled as `List Char`
(`Str`), Python integers as `Int`, Python lists as Lean lists, the
remote-exec collaborator as an explicit function argument, and Python
exceptions as `Option`/`Except` results.  Path helpers (`os.path.dirname`,
`os.path.join`, `os.path.normpath`, `str.strip`, `str.split`) are
translated from CPython's posixpath / str semantics, since the program
manipulates POSIX remote paths.
-/

set_option maxHeartbeats 1000000

abbrev Str := List Char

/-- Python `str` whitespace (ASCII part), as used by `str.strip()` and
`str.split(None, ...)`. -/
def isPyWs (c : Char) : Bool :=
  c = ' ' || c = '\t' || c = '\n' || c = '\r' || c = '\x0b' || c = '\x0c'

/-- Python `s.strip()`: remove whitespace from both ends. -/
def pyStrip (s : Str) : Str :=
  ((s.dropWhile isPyWs).reverse.dropWhile isPyWs).reverse

/-- Python `s.split(None, maxsplit)`: skip leading whitespace; once
`maxsplit` splits have been made the remainder (trailing whitespace kept)
is the final element.  Recursion is structural on `maxsplit`. -/
def pySplitWs : Nat → Str → List Str
  | maxsplit, l =>
    match maxsplit, l.dropWhile isPyWs with
    | _, [] => []
    | 0, c :: rest => [c :: rest]
    | m + 1, c :: rest =>
      (c :: rest.takeWhile (fun x => ¬ isPyWs x))
        :: pySplitWs m (rest.dropWhile (fun x => ¬ isPyWs x))

/-- One parsed `ls -lA` row (the dict built by `parse_ls_output`; the
`links` token is read but not stored by the source). -/
structure Entry where
  ftype : Char
  perms : Str
  user : Str
  group : Str
  size : Str
  date : Str
  time : Str
  name : Str
deriving Repr, DecidableEq

/-- Python `line.startswith('total')`. -/
def isTotalLine (l : Str) : Bool := l.take 5 = ("total").data

/-- Body of the `parse_ls_output` loop for a single line: skip `total`
lines, split into at most 8 whitespace fields, drop lines with fewer than
8 fields, `ftype` is the first character of the permissions token (which
is never empty, see `pySplitWs_first_tok_ne_nil`). -/
def parseLine (line : Str) : Option Entry :=
  if isTotalLine line then none
  else
    match pySplitWs 7 line with
    | [perms, _links, user, group, size, date, time, name] =>
      match perms with
      | [] => none
      | c :: _ => some ⟨c, perms, user, group, size, date, time, name⟩
    | _ => none

/-- Lines of the listing output: `output.strip().split('\n')`. -/
def linesOf (output : Str) : List Str := (pyStrip output).splitOn '\n'

/-- The function `parse_ls_output`: iterate the per-line parser over the lines,
collecting the successfully parsed entries in order. -/
def parse_ls_output (output : Str) : List Entry :=
  (linesOf output).filterMap parseLine

/-! ## POSIX path helpers (CPython `posixpath` semantics) -/

def isSlash (c : Char) : Bool := c = '/'

def notSlash (c : Char) : Bool := ¬ c = '/'

/-- Python `s.rstrip('/')`. -/
def rstripSlash (s : Str) : Str := (s.reverse.dropWhile isSlash).reverse

/-- CPython `posixpath.dirname`: everything up to (excluding) the last
`'/'`; the head keeps its slashes only when it consists solely of
slashes. -/
def pyDirname (p : Str) : Str :=
  let r := p.reverse
  let hd := r.dropWhile notSlash
  if hd ≠ [] ∧ hd.any notSlash then
    (hd.dropWhile isSlash).reverse
  else hd.reverse

/-- The enter-key handler's parent computation:
`os.path.dirname(cwd.rstrip('/')) or '/'`. -/
def parentDir (cwd : Str) : Str :=
  let d := pyDirname (rstripSlash cwd)
  if d = [] then ['/'] else d

/-- CPython `posixpath.join` for two arguments, as used by
`os.path.join(cwd, name)`. -/
def pyJoin (a b : Str) : Str :=
  if b.take 1 = ['/'] then b
  else if a = [] ∨ a.getLast? = some '/' then a ++ b
  else a ++ '/' :: b

/-- Python `path or '.'`: an empty string is falsy. -/
def orDot (s : Str) : Str := if s = [] then ['.'] else s

/-- CPython `posixpath.normpath` (pure-Python reference implementation):
collapse `//` and `/./`, resolve `..` lexically, preserve a double
leading slash. -/
def pyNormpath (p : Str) : Str :=
  if p = [] then ['.']
  else
    let slashes : Nat :=
      if p.take 1 = ['/'] then
        if p.take 2 = ['/', '/'] ∧ ¬ p.take 3 = ['/', '/', '/'] then 2 else 1
      else 0
    let comps := p.splitOn '/'
    let newComps := comps.foldl
      (fun acc comp =>
        if comp = [] ∨ comp = ['.'] then acc
        else if ¬ comp = ['.', '.'] ∨ (slashes = 0 ∧ acc = [])
            ∨ (acc ≠ [] ∧ acc.getLast? = some ['.', '.']) then
          acc ++ [comp]
        else acc.dropLast)
      []
    let joined := List.intercalate ['/'] newComps
    orDot (List.replicate slashes '/' ++ joined)

/-! ## Transfer progress parsing (`parse_file_progress` inside `rsync_pull`) -/

def toChkLit : Str := ("to-chk=").data

/-- Numeric value of a decimal digit string, as Python `int(...)` on the
digits captured by `\d+`. -/
def digitsToNat (ds : Str) : Nat := ds.foldl (fun a c => a * 10 + (c.toNat - 48)) 0

/-- Attempt to match the regex `to-chk=(\d+)/(\d+)` anchored at the start
of `l`; the greedy `\d+` groups are maximal digit runs. -/
def matchToChkAt (l : Str) : Option (Nat × Nat) :=
  if l.take toChkLit.length = toChkLit then
    let r := l.drop toChkLit.length
    let d1 := r.takeWhile Char.isDigit
    let r1 := r.dropWhile Char.isDigit
    if d1 = [] then none
    else
      match r1 with
      | '/' :: r2 =>
        let d2 := r2.takeWhile Char.isDigit
        if d2 = [] then none else some (digitsToNat d1, digitsToNat d2)
      | _ => none
  else none

/-- Python `re.search(r'to-chk=(\d+)/(\d+)', line)`: leftmost match, scanning
every start position. -/
def searchToChk : Str → Option (Nat × Nat)
  | [] => none
  | c :: rest =>
    match matchToChkAt (c :: rest) with
    | some r => some r
    | none => searchToChk rest

/-- The progress status message `f'文件进度: {done}/{total}'` (the spec's
English rendering is `"progress: done/total"`). -/
def progressMsg (done : Int) (total : Nat) : String :=
  "文件进度: " ++ toString done ++ "/" ++ toString total

/-- The function `parse_file_progress(line)`: on a `to-chk=remain/total` token, report
`done = total - remain`; otherwise report nothing. -/
def parse_file_progress (line : Str) : Option String :=
  match searchToChk line with
  | some (remain, total) => some (progressMsg ((total : Int) - remain) total)
  | none => none

/-! ## Remote listing service (`get_entries`) -/

/-- The ordered listing-command variants built by `get_entries`: for each
candidate `ls` binary, first the ISO-timestamp variant, then the plain
variant. -/
def lsCmds (path : Str) : List Str :=
  [("/bin/ls").data, ("/usr/bin/ls").data, ("ls").data].foldr
    (fun b acc =>
      (b ++ (" -lA --time-style=long-iso ").data ++ path)
        :: (b ++ (" -lA ").data ++ path) :: acc)
    []

/-- The `for ls_cmd in ls_cmds: try ... break except ... continue` loop:
result of the first command whose remote execution succeeds
(`check=True` turns a non-zero exit into a caught exception). -/
def firstOk (exec : Str → Except Unit Str) : List Str → Option Str
  | [] => none
  | c :: rest =>
    match exec c with
    | .ok out => some out
    | .error _ => firstOk exec rest

/-- The synthetic `".."` parent row injected by `get_entries`. -/
def parentEntry : Entry :=
  ⟨'d', ("drwxr-xr-x").data, [], [], [], [], [], ("..").data⟩

/-- The function `get_entries(user, host, port, path)` with the remote-exec
collaborator abstracted as `exec`: try the command variants in order;
on total failure return `[]`; otherwise parse, prepending `".."` when
`path != '/'`. -/
def get_entries (exec : Str → Except Unit Str) (path : Str) : List Entry :=
  match firstOk exec (lsCmds path) with
  | none => []
  | some out =>
    let entries := parse_ls_output out
    if path ≠ ['/'] then parentEntry :: entries else entries

/-! ## Browser state and key handlers (`interactive_browse`) -/

/-- The mutable browsing state of `interactive_browse`: `cwd`, `entries`,
`selected` (cursor), `page_start`, and `selected_files` (the marked
set, modelled as a duplicate-free list of names). -/
structure BrowserState where
  cwd : Str
  entries : List Entry
  selected : Int
  pageStart : Int
  marked : List Str
deriving Repr, DecidableEq

/-- The fixed `page_size = 20`. -/
def pageSize : Int := 20

/-- Python list indexing `l[i]` (negative indices count from the end;
out of range raises, modelled as `none`). -/
def pyIndex (l : List α) (i : Int) : Option α :=
  let j := if i < 0 then i + l.length else i
  if 0 ≤ j then l[j.toNat]? else none

/-- The `up` key handler. -/
def upKey (s : BrowserState) : BrowserState :=
  if s.selected > 0 then
    let sel := s.selected - 1
    let ps := if sel < s.pageStart then max 0 sel else s.pageStart
    { s with selected := sel, pageStart := ps }
  else s

/-- The `down` key handler. -/
def downKey (s : BrowserState) : BrowserState :=
  if s.selected < (s.entries.length : Int) - 1 then
    let sel := s.selected + 1
    let ps := if sel ≥ s.pageStart + pageSize then sel - pageSize + 1 else s.pageStart
    { s with selected := sel, pageStart := ps }
  else s

/-- The `pageup` key handler. -/
def pageUpKey (s : BrowserState) : BrowserState :=
  if s.selected > 0 then
    { s with selected := max 0 (s.selected - pageSize),
             pageStart := max 0 (s.pageStart - pageSize) }
  else s

/-- The `pagedown` key handler. -/
def pageDownKey (s : BrowserState) : BrowserState :=
  if s.selected < (s.entries.length : Int) - 1 then
    let sel := min ((s.entries.length : Int) - 1) (s.selected + pageSize)
    let ps0 := min (max 0 ((s.entries.length : Int) - pageSize)) (s.pageStart + pageSize)
    let ps := if sel ≥ ps0 + pageSize then sel - pageSize + 1 else ps0
    { s with selected := sel, pageStart := ps }
  else s

/-- Python-set toggle on the marked-name list:
`remove` if present else `add`. -/
def toggleMark (n : Str) (marked : List Str) : List Str :=
  if n ∈ marked then marked.erase n else marked ++ [n]

/-- The `space` key handler: reads `entries[selected]` (raising
`IndexError` — `none` — when out of range) and toggles its name in the
marked set. -/
def spaceKey (s : BrowserState) : Option BrowserState :=
  match pyIndex s.entries s.selected with
  | none => none
  | some e => some { s with marked := toggleMark e.name s.marked }

/-- The `enter` key handler (`update_entries` inlined: it replaces
`entries` with a fresh fetch and zeroes `page_start` and `selected`).
Reads `entries[selected]` (raising — `none` — when out of range); on
`".."` go to the parent, on a directory descend, otherwise do nothing.
The marked set is not touched. -/
def enterKey (fetch : Str → List Entry) (s : BrowserState) : Option BrowserState :=
  match pyIndex s.entries s.selected with
  | none => none
  | some e =>
    if e.name = ("..").data then
      let cwd := parentDir s.cwd
      some { s with cwd := cwd, entries := fetch cwd, pageStart := 0, selected := 0 }
    else if e.ftype = 'd' then
      let cwd := pyJoin s.cwd e.name
      some { s with cwd := cwd, entries := fetch cwd, pageStart := 0, selected := 0 }
    else some s

/-- Navigation events of claim C6. -/
inductive NavEv | up | down | pgUp | pgDown
deriving Repr, DecidableEq

def navStep (e : NavEv) (s : BrowserState) : BrowserState :=
  match e with
  | .up => upKey s
  | .down => downKey s
  | .pgUp => pageUpKey s
  | .pgDown => pageDownKey s

def runNav (evs : List NavEv) (s : BrowserState) : BrowserState :=
  evs.foldl (fun s e => navStep e s) s

/-- The browsing state as initialised by `interactive_browse` (and as
re-established after every directory change): cursor and page at 0. -/
def initBrowse (cwd : Str) (entries : List Entry) : BrowserState :=
  ⟨cwd, entries, 0, 0, []⟩

/-! ## Transfer engine termination and shutdown (`rsync_pull`, `q` key) -/

/-- Terminal status of `rsync_pull`: `'传输完毕'` ("transfer complete")
exactly on exit code 0, `'同步失败'` ("transfer failed") otherwise. -/
def terminalMsg (rc : Int) : String := if rc = 0 then "传输完毕" else "同步失败"

/-- Registration of a launched process handle:
`if active_procs is not None: active_procs.append(proc)`. -/
def registerProc (ap : Option (List Nat)) (p : Nat) : Option (List Nat) :=
  ap.map (fun l => l ++ [p])

/-- Deregistration at termination:
`try: active_procs.remove(proc) except: pass` — remove the first
occurrence; absence is a caught no-op. -/
def deregisterProc (ap : Option (List Nat)) (p : Nat) : Option (List Nat) :=
  ap.map (fun l => l.erase p)

/-- Observable effects of the `q` key handler. -/
inductive QuitEffect
  | signal (p : Nat)
  | appExit
  | procExit
deriving Repr, DecidableEq

/-- The sweep `try: os.killpg(os.getpgid(proc.pid), signal.SIGKILL) except: pass`:
one SIGKILL attempt is recorded per handle whether or not the signal
succeeds (`killOk`), because the exception is swallowed and the loop
continues. -/
def killSweep (killOk : Nat → Bool) : List Nat → List QuitEffect
  | [] => []
  | p :: rest =>
    let _attempt := killOk p
    QuitEffect.signal p :: killSweep killOk rest

/-- The `q` key handler: sweep every registered handle with a
terminate-process-group signal, then `event.app.exit()` and
`os._exit(0)`. -/
def quitKeyTrace (killOk : Nat → Bool) (activeProcs : List Nat) : List QuitEffect :=
  killSweep killOk activeProcs ++ [QuitEffect.appExit, QuitEffect.procExit]

/-! ## Startup home-directory lookup (`get_remote_home`) -/

/-- The function `get_remote_home` with the remote `echo $HOME` call abstracted as its
exit code and stdout: normalize the stripped output on success, fall
back to `'/'` on failure. -/
def get_remote_home (rc : Int) (stdout : Str) : Str :=
  if rc = 0 then pyNormpath (pyStrip stdout) else ['/']

/-- Declarative form of "the line contains a token `to-chk=<r>/<t>` with
decimal integers": some decomposition exhibits the literal `to-chk=`
followed by a non-empty digit run, a slash and a non-empty digit run. -/
def HasTok (line : Str) (r t : Nat) : Prop :=
  ∃ pre d1 d2 post,
    line = pre ++ toChkLit ++ d1 ++ '/' :: (d2 ++ post)
    ∧ d1 ≠ [] ∧ (∀ c ∈ d1, c.isDigit = true)
    ∧ d2 ≠ [] ∧ (∀ c ∈ d2, c.isDigit = true)
    ∧ digitsToNat d1 = r ∧ digitsToNat d2 = t

/-- A well-formed path component: non-empty and slash-free. -/
def ValidComp (c : Str) : Prop := c ≠ [] ∧ ∀ ch ∈ c, ch ≠ '/'

/-- Join path components with `'/'`. -/
def joinComps : List Str → Str
  | [] => []
  | [c] => c
  | c :: c' :: cs => c ++ '/' :: joinComps (c' :: cs)

/-- The normalized absolute path with the given components; `mkPath []`
is the filesystem root `/`. -/
def mkPath (cs : List Str) : Str := '/' :: joinComps cs

/-- The navigation invariant of claim C6: the cursor stays inside
`[0, max 0 (len-1)]`, the page start is non-negative, and on a
non-empty entry list the cursor stays inside the visible page window. -/
def NavInv (s : BrowserState) : Prop :=
  0 ≤ s.selected
  ∧ s.selected ≤ max 0 ((s.entries.length : Int) - 1)
  ∧ 0 ≤ s.pageStart
  ∧ (0 < s.entries.length → s.pageStart ≤ s.selected ∧ s.selected < s.pageStart + pageSize)

/-! ## Session-level dispatch (claim C2) -/

/-- The input events bound by `interactive_browse`: the four cursor
keys, `space` (toggle mark), `enter` (open directory), `d` (batch
download), `q` (quit), and the catch-all `<any>` binding. -/
inductive KeyEv
  | up | down | pgUp | pgDown | space | enter | download | other | quit
deriving Repr, DecidableEq

/-- The full interactive state: the browsing state plus the transient
status line `message[0]`. -/
structure UIState where
  browse : BrowserState
  message : String
deriving Repr, DecidableEq

/-- The `<any>` key handler: a displayed transient message is cleared by
the first keypress; otherwise nothing happens. -/
def anyKey (s : UIState) : UIState :=
  if s.message ≠ "" then { s with message := "" } else s

/-- The `d` key handler: one sequential `rsync_pull` per marked name
(each invocation, abstracted as `pull` over the joined remote path, ends
by setting its terminal status message), then the marked set is
cleared.  The handler performs no list indexing and cannot raise. -/
def dKey (pull : Str → String) (s : UIState) : UIState :=
  let final := s.browse.marked.foldl (fun _ n => pull (pyJoin s.browse.cwd n)) s.message
  { browse := { s.browse with marked := [] }, message := final }

/-- One key-binding dispatch of `interactive_browse`: the handler's
resulting state, or `none` when the handler raises (only `space` and
`enter` index `entries[selected]` and can raise `IndexError`).  The `q`
handler is dispatched at the session level, see `sessionStep`. -/
def dispatchKey (fetch : Str → List Entry) (pull : Str → String) :
    KeyEv → UIState → Option UIState
  | .up, s => some { s with browse := upKey s.browse }
  | .down, s => some { s with browse := downKey s.browse }
  | .pgUp, s => some { s with browse := pageUpKey s.browse }
  | .pgDown, s => some { s with browse := pageDownKey s.browse }
  | .space, s => (spaceKey s.browse).map (fun b => { s with browse := b })
  | .enter, s => (enterKey fetch s.browse).map (fun b => { s with browse := b })
  | .download, s => some (dKey pull s)
  | .other, s => some (anyKey s)
  | .quit, s => some s

/-- Modelled from the spec: the interaction loop's exception barrier.
The key handlers themselves are under src/, but what happens to an
exception escaping one is decided by the external application loop
(`await app.run_async()`, prompt_toolkit 3.x with its default
exception handler): the exception is caught and reported, the key
processor is reset, and the session keeps running with the state
unchanged — per spec section 7, "No error in this system should
terminate the interactive session except the two startup-fatal cases
above and an explicit quit command."  The returned flag records whether
the session ended: only the `q` handler (`event.app.exit()` then
`os._exit(0)`) ends it. -/
def sessionStep (fetch : Str → List Entry) (pull : Str → String)
    (ev : KeyEv) (s : UIState) : UIState × Bool :=
  match ev with
  | .quit => (s, true)
  | _ =>
    match dispatchKey fetch pull ev s with
    | some s' => (s', false)
    | none => (s, false)

/-! ## Concrete states used by the claim C1 and C2 artifacts -/

/-- A directory entry named `b`, as parsed from a listing of `/a`. -/
def entryDirB : Entry :=
  ⟨'d', ("drwxr-xr-x").data, ("root").data, ("root").data, ("4096").data,
    ("2024-01-01").data, ("10:00").data, ['b']⟩

/-- Browsing `/a` with the cursor on directory `b` and the name `x`
marked. -/
def c1Before : BrowserState :=
  ⟨("/a").data, [parentEntry, entryDirB], 1, 0, [['x']]⟩

/-- The state the enter handler produces from `c1Before` when the fetch
of `/a/b` yields no entries. -/
def c1After : BrowserState :=
  ⟨("/a/b").data, [], 0, 0, [['x']]⟩

/-! ## Theorems -/

/-- C1 counterexample: entering directory `b` from `/a` with the name
`x` marked changes the directory but leaves the marked set non-empty —
the claimed clearing of `marked` on every directory change does not
happen. -/
theorem enter_preserves_marks_cex :
    enterKey (fun _ => []) c1Before = some c1After
    ∧ c1After.cwd ≠ c1Before.cwd
    ∧ c1After.marked ≠ [] := by decide

/-- C1 (amended): every directory change performed by the enter handler
resets `cursor` and `pageStart` to 0, but the marked set is left
unchanged — marks persist across directory changes. -/
theorem enter_resets_cursor_keeps_marks (fetch : Str → List Entry) (s s' : BrowserState)
    (h : enterKey fetch s = some s') (hch : s'.cwd ≠ s.cwd) :
    s'.selected = 0 ∧ s'.pageStart = 0 ∧ s'.marked = s.marked := by
  unfold enterKey at h
  rcases he : pyIndex s.entries s.selected with _ | e
  · rw [he] at h; exact absurd h (by simp)
  · rw [he] at h
    by_cases h1 : e.name = ("..").data
    · simp only [h1, if_true] at h
      cases h; exact ⟨rfl, rfl, rfl⟩
    · by_cases h2 : e.ftype = 'd'
      · simp only [h1, if_false, h2, if_true] at h
        cases h; exact ⟨rfl, rfl, rfl⟩
      · simp only [h1, if_false, h2] at h
        cases h; exact absurd rfl hch

theorem enter_resets_cursor_keeps_marks_witness :
    c1After.selected = 0 ∧ c1After.pageStart = 0 ∧ c1After.marked = c1Before.marked :=
  enter_resets_cursor_keeps_marks (fun _ => []) c1Before c1After (by decide) (by decide)

/-- C2: no input event ends the interactive session except the explicit
quit command.  For every state and every event, the session-ended flag
is true exactly on `q`; when a handler raises (dispatch `none`) the
application loop's exception barrier keeps the session running with the
state unchanged; and in particular on an empty entry list (every
listing variant for `/` failed) the space and enter handlers do raise
`IndexError` (`entries[0]` on `[]`), yet the session continues. -/
theorem no_key_ends_session (fetch : Str → List Entry) (pull : Str → String)
    (ev : KeyEv) (s : UIState) :
    ((sessionStep fetch pull ev s).2 = true ↔ ev = KeyEv.quit)
    ∧ (dispatchKey fetch pull ev s = none → sessionStep fetch pull ev s = (s, false))
    ∧ (spaceKey (initBrowse ['/'] []) = none
        ∧ enterKey fetch (initBrowse ['/'] []) = none
        ∧ sessionStep fetch pull KeyEv.space ⟨initBrowse ['/'] [], ""⟩
            = (⟨initBrowse ['/'] [], ""⟩, false)
        ∧ sessionStep fetch pull KeyEv.enter ⟨initBrowse ['/'] [], ""⟩
            = (⟨initBrowse ['/'] [], ""⟩, false)) := by
  refine ⟨?_, ?_, rfl, rfl, rfl, rfl⟩
  · cases ev
    case quit => simp [sessionStep]
    case space =>
      rcases hsp : spaceKey s.browse with _ | b <;>
        simp [sessionStep, dispatchKey, hsp]
    case enter =>
      rcases hen : enterKey fetch s.browse with _ | b <;>
        simp [sessionStep, dispatchKey, hen]
    all_goals simp [sessionStep, dispatchKey]
  · intro h
    cases ev
    case space =>
      rcases hsp : spaceKey s.browse with _ | b
      · simp [sessionStep, dispatchKey, hsp]
      · rw [dispatchKey, hsp] at h
        simp at h
    case enter =>
      rcases hen : enterKey fetch s.browse with _ | b
      · simp [sessionStep, dispatchKey, hen]
      · rw [dispatchKey, hen] at h
        simp at h
    all_goals simp [dispatchKey] at h

theorem no_key_ends_session_witness :
    ((sessionStep (fun _ => []) (fun _ => "") KeyEv.space ⟨initBrowse ['/'] [], ""⟩).2 = true
        ↔ KeyEv.space = KeyEv.quit)
    ∧ (dispatchKey (fun _ => []) (fun _ => "") KeyEv.space ⟨initBrowse ['/'] [], ""⟩ = none →
        sessionStep (fun _ => []) (fun _ => "") KeyEv.space ⟨initBrowse ['/'] [], ""⟩
          = (⟨initBrowse ['/'] [], ""⟩, false))
    ∧ (spaceKey (initBrowse ['/'] []) = none
        ∧ enterKey (fun _ => []) (initBrowse ['/'] []) = none
        ∧ sessionStep (fun _ => []) (fun _ => "") KeyEv.space ⟨initBrowse ['/'] [], ""⟩
            = (⟨initBrowse ['/'] [], ""⟩, false)
        ∧ sessionStep (fun _ => []) (fun _ => "") KeyEv.enter ⟨initBrowse ['/'] [], ""⟩
            = (⟨initBrowse ['/'] [], ""⟩, false)) :=
  no_key_ends_session (fun _ => []) (fun _ => "") KeyEv.space ⟨initBrowse ['/'] [], ""⟩

/-- C3: the transfer-tool exit code 0 yields the terminal status
`'传输完毕'` ("transfer complete") and any non-zero exit code yields
`'同步失败'` ("transfer failed"); the handle registered at launch is
removed from the live-handle set at termination, and removing an
already-absent handle is a no-op rather than an error. -/
theorem transfer_termination_spec (rc : Int) (p : Nat) (l : List Nat) (hp : p ∉ l) :
    (terminalMsg rc = "传输完毕" ↔ rc = 0)
    ∧ (terminalMsg rc = "同步失败" ↔ rc ≠ 0)
    ∧ deregisterProc (registerProc (some l) p) p = some l
    ∧ deregisterProc (some l) p = some l := by
  refine ⟨?_, ?_, ?_, ?_⟩
  · unfold terminalMsg
    by_cases h : rc = 0 <;> simp [h]
  · unfold terminalMsg
    by_cases h : rc = 0 <;> simp [h]
  · simp [registerProc, deregisterProc, List.erase_append_right _ hp]
  · simp [deregisterProc, List.erase_of_not_mem hp]

theorem transfer_termination_spec_witness :
    deregisterProc (registerProc (some [3, 4]) 2) 2 = some [3, 4] :=
  (transfer_termination_spec 0 2 [3, 4] (by decide)).2.2.1

/-- C9: on quit, the kill sweep issues exactly one terminate-process-group
signal per handle registered in the live set (in particular two signals
for two handles), independently of whether any individual kill fails
(failures are swallowed), and the trace ends with the process exit. -/
theorem quit_cancel_spec (killOk : Nat → Bool) (procs : List Nat) :
    (quitKeyTrace killOk procs).filterMap
        (fun e => match e with | .signal p => some p | _ => none) = procs
    ∧ ((quitKeyTrace killOk procs).countP
        (fun e => match e with | .signal _ => true | _ => false)) = procs.length
    ∧ (quitKeyTrace killOk procs).getLast? = some QuitEffect.procExit := by
  refine ⟨?_, ?_, ?_⟩
  · unfold quitKeyTrace
    rw [List.filterMap_append]
    have h : ∀ ps : List Nat, (killSweep killOk ps).filterMap
        (fun e => match e with | .signal p => some p | _ => none) = ps := by
      intro ps
      induction ps with
      | nil => rfl
      | cons p rest ih => simp [killSweep, ih]
    have htail : ([QuitEffect.appExit, QuitEffect.procExit]).filterMap
        (fun e => match e with | .signal p => some p | _ => none) = [] := rfl
    rw [h, htail, List.append_nil]
  · unfold quitKeyTrace
    rw [List.countP_append]
    have h : ∀ ps : List Nat, (killSweep killOk ps).countP
        (fun e => match e with | .signal _ => true | _ => false) = ps.length := by
      intro ps
      induction ps with
      | nil => rfl
      | cons p rest ih => simp [killSweep, List.countP_cons, ih]
    have htail : ([QuitEffect.appExit, QuitEffect.procExit]).countP
        (fun e => match e with | .signal _ => true | _ => false) = 0 := rfl
    rw [h, htail, Nat.add_zero]
  · unfold quitKeyTrace
    rw [show [QuitEffect.appExit, QuitEffect.procExit]
          = [QuitEffect.appExit] ++ [QuitEffect.procExit] from rfl,
        ← List.append_assoc, List.getLast?_concat]

/-- C10: if the remote home-directory lookup exits non-zero, the start
path falls back to the filesystem root `/`; on exit 0 the reported home
is stripped and normalized (`os.path.normpath`) before use, and the
resulting path is never empty. -/
theorem remote_home_spec (rc : Int) (stdout : Str) :
    (rc ≠ 0 → get_remote_home rc stdout = ['/'])
    ∧ (rc = 0 → get_remote_home rc stdout = pyNormpath (pyStrip stdout))
    ∧ get_remote_home rc stdout ≠ [] := by
  have hOrDot : ∀ s : Str, orDot s ≠ [] := by
    intro s
    unfold orDot
    split
    · simp
    · assumption
  have hne : ∀ p : Str, pyNormpath p ≠ [] := by
    intro p
    unfold pyNormpath
    by_cases h : p = []
    · simp [h]
    · simp only [h, if_false]
      exact hOrDot _
  refine ⟨?_, ?_, ?_⟩
  · intro h; unfold get_remote_home; simp [h]
  · intro h; unfold get_remote_home; simp [h]
  · unfold get_remote_home
    by_cases h : rc = 0
    · simp only [h, if_true]; exact hne _
    · simp [h]

theorem remote_home_spec_witness : get_remote_home 255 ("ignored").data = ['/'] :=
  (remote_home_spec 255 ("ignored").data).1 (by decide)

theorem navStep_entries (e : NavEv) (s : BrowserState) : (navStep e s).entries = s.entries := by
  cases e <;>
    simp only [navStep, upKey, downKey, pageUpKey, pageDownKey] <;>
    split <;> rfl

theorem navStep_inv (e : NavEv) (s : BrowserState) (h : NavInv s) : NavInv (navStep e s) := by
  obtain ⟨h1, h2, h3, h4⟩ := h
  have hps : pageSize = 20 := rfl
  cases e
  case up =>
    simp only [navStep, upKey]
    split
    · refine ⟨?_, ?_, ?_, ?_⟩ <;> simp only [NavInv] <;> intros <;> omega
    · exact ⟨h1, h2, h3, h4⟩
  case down =>
    simp only [navStep, downKey]
    split
    · refine ⟨?_, ?_, ?_, ?_⟩ <;> simp only [NavInv, hps] at * <;> intros <;> omega
    · exact ⟨h1, h2, h3, h4⟩
  case pgUp =>
    simp only [navStep, pageUpKey]
    split
    · refine ⟨?_, ?_, ?_, ?_⟩ <;> simp only [NavInv, hps] at * <;> intros <;> omega
    · exact ⟨h1, h2, h3, h4⟩
  case pgDown =>
    simp only [navStep, pageDownKey]
    split
    · refine ⟨?_, ?_, ?_, ?_⟩ <;> simp only [NavInv, hps] at * <;> intros <;> omega
    · exact ⟨h1, h2, h3, h4⟩

theorem runNav_inv (evs : List NavEv) (s : BrowserState) (h : NavInv s) :
    NavInv (runNav evs s) := by
  induction evs generalizing s with
  | nil => exact h
  | cons e rest ih => exact ih (navStep e s) (navStep_inv e s h)

theorem runNav_entries (evs : List NavEv) (s : BrowserState) :
    (runNav evs s).entries = s.entries := by
  induction evs generalizing s with
  | nil => rfl
  | cons e rest ih => rw [runNav, List.foldl_cons, ← runNav, ih, navStep_entries]

/-- C6: after any finite sequence of cursor-up / cursor-down / page-up /
page-down events from the initial state `cursor = 0, pageStart = 0`, the
cursor stays within `[0, max 0 (len(entries)-1)]`, and when the entry
list is non-empty the cursor stays within the visible window
`[pageStart, pageStart + pageSize)`. -/
theorem nav_cursor_in_range (cwd : Str) (entries : List Entry) (evs : List NavEv) :
    0 ≤ (runNav evs (initBrowse cwd entries)).selected
    ∧ (runNav evs (initBrowse cwd entries)).selected ≤ max 0 ((entries.length : Int) - 1)
    ∧ (entries ≠ [] →
        (runNav evs (initBrowse cwd entries)).pageStart
            ≤ (runNav evs (initBrowse cwd entries)).selected
          ∧ (runNav evs (initBrowse cwd entries)).selected
            < (runNav evs (initBrowse cwd entries)).pageStart + pageSize) := by
  have hinit : NavInv (initBrowse cwd entries) :=
    ⟨le_refl 0, le_max_left 0 _, le_refl 0,
      fun _ => ⟨le_refl 0, by show (0 : Int) < 0 + 20; norm_num⟩⟩
  have h := runNav_inv evs (initBrowse cwd entries) hinit
  have hent : (runNav evs (initBrowse cwd entries)).entries = entries :=
    runNav_entries evs (initBrowse cwd entries)
  obtain ⟨h1, h2, h3, h4⟩ := h
  rw [hent] at h2 h4
  refine ⟨h1, h2, ?_⟩
  intro hne
  exact h4 (List.length_pos.mpr hne)

theorem nav_cursor_in_range_witness :
    [parentEntry] ≠ []
    ∧ (0 ≤ (runNav [NavEv.down, NavEv.pgDown, NavEv.up]
          (initBrowse ['/'] [parentEntry])).selected
      ∧ (runNav [NavEv.down, NavEv.pgDown, NavEv.up]
          (initBrowse ['/'] [parentEntry])).selected
          ≤ max 0 (([parentEntry].length : Int) - 1)
      ∧ ([parentEntry] ≠ [] →
          (runNav [NavEv.down, NavEv.pgDown, NavEv.up]
              (initBrowse ['/'] [parentEntry])).pageStart
              ≤ (runNav [NavEv.down, NavEv.pgDown, NavEv.up]
                  (initBrowse ['/'] [parentEntry])).selected
            ∧ (runNav [NavEv.down, NavEv.pgDown, NavEv.up]
                  (initBrowse ['/'] [parentEntry])).selected
              < (runNav [NavEv.down, NavEv.pgDown, NavEv.up]
                  (initBrowse ['/'] [parentEntry])).pageStart + pageSize)) :=
  ⟨by decide, nav_cursor_in_range ['/'] [parentEntry] [NavEv.down, NavEv.pgDown, NavEv.up]⟩

theorem firstOk_all_fail (exec : Str → Except Unit Str) :
    ∀ cmds : List Str, (∀ c ∈ cmds, exec c = .error ()) → firstOk exec cmds = none := by
  intro cmds h
  induction cmds with
  | nil => rfl
  | cons c rest ih =>
    have hc := h c (by simp)
    simp only [firstOk, hc]
    exact ih fun c' hc' => h c' (by simp [hc'])

theorem firstOk_first_success (exec : Str → Except Unit Str) :
    ∀ (pre : List Str) (c : Str) (post : List Str) (out : Str),
      (∀ c' ∈ pre, exec c' = .error ()) → exec c = .ok out →
      firstOk exec (pre ++ c :: post) = some out := by
  intro pre
  induction pre with
  | nil =>
    intro c post out _ hc
    simp only [List.nil_append, firstOk, hc]
  | cons a t ih =>
    intro c post out hpre hc
    have ha := hpre a (by simp)
    simp only [List.cons_append, firstOk, ha]
    exact ih c post out (fun c' hc' => hpre c' (by simp [hc'])) hc

/-- C8: the listing operation tries the ordered command variants and
stops at the first whose remote execution succeeds; when every variant
fails (each `subprocess.run(..., check=True)` raises and is caught) it
returns the empty list instead of raising — an empty result is the
caller's only failure signal. -/
theorem listing_soft_fail (exec : Str → Except Unit Str) (path : Str) :
    ((∀ c ∈ lsCmds path, exec c = .error ()) → get_entries exec path = [])
    ∧ (∀ pre c post out, lsCmds path = pre ++ c :: post →
        (∀ c' ∈ pre, exec c' = .error ()) → exec c = .ok out →
        get_entries exec path =
          (if path ≠ ['/'] then parentEntry :: parse_ls_output out
           else parse_ls_output out)) := by
  constructor
  · intro h
    unfold get_entries
    rw [firstOk_all_fail exec (lsCmds path) h]
  · intro pre c post out hdecomp hpre hc
    unfold get_entries
    rw [hdecomp, firstOk_first_success exec pre c post out hpre hc]

theorem listing_soft_fail_witness : get_entries (fun _ => .error ()) ("/a").data = [] :=
  (listing_soft_fail (fun _ => .error ()) ("/a").data).1 (fun _ _ => rfl)

/-- C7 counterexample: at the non-root path `/a`, when every listing
variant fails, `get_entries` returns `[]` — no synthetic `".."` entry is
prepended as the first row, contradicting the claim's unconditional
"for every non-root current path". -/
theorem parent_row_missing_cex :
    ("/a").data ≠ ['/']
    ∧ (get_entries (fun _ => .error ()) ("/a").data).head? ≠ some parentEntry := by
  decide

theorem dropWhile_append_of_all {α : Type} {p : α → Bool} :
    ∀ {l₁ l₂ : List α}, (∀ a ∈ l₁, p a = true) →
      (l₁ ++ l₂).dropWhile p = l₂.dropWhile p := by
  intro l₁ l₂ h
  induction l₁ with
  | nil => rfl
  | cons a t ih =>
    rw [List.cons_append, List.dropWhile_cons, if_pos (h a (by simp))]
    exact ih fun x hx => h x (by simp [hx])

theorem takeWhile_append_of_all {α : Type} {p : α → Bool} :
    ∀ {l₁ l₂ : List α}, (∀ a ∈ l₁, p a = true) →
      (l₁ ++ l₂).takeWhile p = l₁ ++ l₂.takeWhile p := by
  intro l₁ l₂ h
  induction l₁ with
  | nil => rfl
  | cons a t ih =>
    rw [List.cons_append, List.takeWhile_cons, if_pos (h a (by simp)), ih fun x hx => h x (by simp [hx])]
    rfl

theorem validComp_reverse {c : Str} (h : ValidComp c) :
    ∃ ch t, c.reverse = ch :: t ∧ ch ≠ '/' := by
  obtain ⟨hne, hall⟩ := h
  rcases hr : c.reverse with _ | ⟨ch, t⟩
  · rw [List.reverse_eq_nil_iff] at hr
    exact absurd hr hne
  · refine ⟨ch, t, rfl, hall ch ?_⟩
    have hm : ch ∈ c.reverse := by rw [hr]; exact List.mem_cons_self ch t
    exact List.mem_reverse.mp hm

theorem joinComps_reverse_head :
    ∀ (cs : List Str), (∀ x ∈ cs, ValidComp x) → cs ≠ [] →
      ∃ ch t, (joinComps cs).reverse = ch :: t ∧ ch ≠ '/' := by
  intro cs
  induction cs with
  | nil => intro _ h; exact absurd rfl h
  | cons c rest ih =>
    intro hall _
    cases rest with
    | nil => exact validComp_reverse (hall c (by simp))
    | cons c' t =>
      obtain ⟨ch, tt, hrev, hch⟩ := ih (fun x hx => hall x (by simp [hx])) (by simp)
      refine ⟨ch, tt ++ '/' :: c.reverse, ?_, hch⟩
      show (joinComps (c :: c' :: t)).reverse = _
      rw [joinComps, List.reverse_append, List.reverse_cons, hrev]
      simp

theorem joinComps_concat :
    ∀ (cs : List Str) (c : Str), cs ≠ [] →
      joinComps (cs ++ [c]) = joinComps cs ++ '/' :: c := by
  intro cs
  induction cs with
  | nil => intro c h; exact absurd rfl h
  | cons a rest ih =>
    intro c _
    cases rest with
    | nil => simp [joinComps]
    | cons b t =>
      have h := ih c (by simp)
      rw [List.cons_append] at h
      have e1 : joinComps (a :: b :: (t ++ [c])) = a ++ '/' :: joinComps (b :: (t ++ [c])) := rfl
      have e2 : joinComps (a :: b :: t) = a ++ '/' :: joinComps (b :: t) := rfl
      show joinComps (a :: b :: (t ++ [c])) = (joinComps (a :: b :: t)) ++ '/' :: c
      rw [e1, e2, h]
      simp

theorem rstripSlash_append_valid {l : Str} {c : Str} (hc : ValidComp c) :
    rstripSlash (l ++ c) = l ++ c := by
  obtain ⟨ch, t, hrev, hch⟩ := validComp_reverse hc
  unfold rstripSlash
  rw [List.reverse_append, hrev, List.cons_append, List.dropWhile_cons,
      if_neg (by simp [isSlash, hch]), ← List.cons_append, ← hrev, ← List.reverse_append,
      List.reverse_reverse]

theorem parentDir_mkPath (cs : List Str) (c : Str) (hc : ValidComp c)
    (hcs : ∀ x ∈ cs, ValidComp x) :
    parentDir (mkPath (cs ++ [c])) = mkPath cs := by
  have hcall : ∀ x ∈ c.reverse, notSlash x = true := by
    intro x hx
    have hxc : x ∈ c := List.mem_reverse.mp hx
    simp [notSlash, hc.2 x hxc]
  cases cs with
  | nil =>
    have hm : mkPath ([] ++ [c]) = ['/'] ++ c := rfl
    have hhd : ((['/'] ++ c).reverse).dropWhile notSlash = ['/'] := by
      rw [List.reverse_append, dropWhile_append_of_all hcall]
      rfl
    have hdir : pyDirname (['/'] ++ c) = ['/'] := by
      simp only [pyDirname]
      rw [hhd]
      decide
    rw [hm]
    unfold parentDir
    rw [rstripSlash_append_valid hc, hdir]
    decide
  | cons c0 rest =>
    have hcs' : (c0 :: rest : List Str) ≠ [] := by simp
    obtain ⟨ch', t', hJrev, hch'⟩ := joinComps_reverse_head (c0 :: rest) hcs hcs'
    have hm : mkPath ((c0 :: rest) ++ [c])
        = ('/' :: (joinComps (c0 :: rest) ++ ['/'])) ++ c := by
      unfold mkPath
      rw [joinComps_concat (c0 :: rest) c hcs']
      simp
    have hrev2 : (('/' :: (joinComps (c0 :: rest) ++ ['/'])) ++ c).reverse
        = c.reverse ++ ('/' :: ((joinComps (c0 :: rest)).reverse ++ ['/'])) := by
      rw [List.reverse_append, List.reverse_cons, List.reverse_append]
      simp
    have hhd : ((('/' :: (joinComps (c0 :: rest) ++ ['/'])) ++ c).reverse).dropWhile notSlash
        = '/' :: ((joinComps (c0 :: rest)).reverse ++ ['/']) := by
      rw [hrev2, dropWhile_append_of_all hcall, List.dropWhile_cons,
          if_neg (by simp [notSlash])]
    have hany : ('/' :: ((joinComps (c0 :: rest)).reverse ++ ['/'])).any notSlash = true := by
      rw [hJrev]
      have hns : notSlash ch' = true := by simp [notSlash, hch']
      simp [List.any_cons, hns]
    have hdrop : (('/' :: ((joinComps (c0 :: rest)).reverse ++ ['/'])).dropWhile isSlash)
        = (joinComps (c0 :: rest)).reverse ++ ['/'] := by
      rw [List.dropWhile_cons, if_pos (by simp [isSlash]), hJrev, List.cons_append,
          List.dropWhile_cons, if_neg (by simp [isSlash, hch']), ← List.cons_append, ← hJrev]
    have hdir : pyDirname (('/' :: (joinComps (c0 :: rest) ++ ['/'])) ++ c)
        = '/' :: joinComps (c0 :: rest) := by
      simp only [pyDirname]
      rw [hhd, if_pos ⟨by simp, hany⟩, hdrop, List.reverse_append, List.reverse_reverse]
      rfl
    rw [hm]
    unfold parentDir
    rw [rstripSlash_append_valid hc, hdir, if_neg (by simp)]
    rfl

/-- C7 (amended): whenever some listing-command variant succeeds, the
listing of a non-root path has the synthetic `".."` directory entry
prepended as its first row, while the root listing is the bare parse
result with no `".."` injected; navigating into `".."` from a normalized
absolute path with at least one component yields the parent path
(dropping the last component), and from the root it is a no-op staying
at the root. -/
theorem parent_row_and_parent_nav (exec : Str → Except Unit Str) (path out : Str)
    (cs : List Str) (c : Str)
    (hpath : path ≠ ['/'])
    (hok : firstOk exec (lsCmds path) = some out)
    (hc : ValidComp c) (hcs : ∀ x ∈ cs, ValidComp x) :
    (get_entries exec path).head? = some parentEntry
    ∧ (∀ out', firstOk exec (lsCmds ['/']) = some out' →
        get_entries exec ['/'] = parse_ls_output out')
    ∧ parentDir (mkPath (cs ++ [c])) = mkPath cs
    ∧ parentDir ['/'] = ['/'] := by
  refine ⟨?_, ?_, parentDir_mkPath cs c hc hcs, by decide⟩
  · unfold get_entries
    rw [hok]
    show (if path ≠ ['/'] then parentEntry :: parse_ls_output out
          else parse_ls_output out).head? = some parentEntry
    rw [if_pos hpath]
    rfl
  · intro out' hok'
    unfold get_entries
    rw [hok']
    show (if (['/'] : Str) ≠ ['/'] then parentEntry :: parse_ls_output out'
          else parse_ls_output out') = parse_ls_output out'
    rw [if_neg (by simp)]

theorem parent_row_and_parent_nav_witness :
    (get_entries (fun _ => .ok []) ("/a").data).head? = some parentEntry
    ∧ parentDir (mkPath ([['a']] ++ [['b']])) = mkPath [['a']] :=
  ⟨(parent_row_and_parent_nav (fun _ => .ok []) ("/a").data [] [['a']] ['b']
      (by decide) rfl ⟨by decide, by decide⟩
      (by intro x hx; simp at hx; subst hx; exact ⟨by decide, by decide⟩)).1,
   (parent_row_and_parent_nav (fun _ => .ok []) ("/a").data [] [['a']] ['b']
      (by decide) rfl ⟨by decide, by decide⟩
      (by intro x hx; simp at hx; subst hx; exact ⟨by decide, by decide⟩)).2.2.1⟩

theorem matchToChkAt_sound {l : Str} {r t : Nat} (h : matchToChkAt l = some (r, t)) :
    HasTok l r t := by
  unfold matchToChkAt at h
  split at h
  case isFalse => exact absurd h (by simp)
  case isTrue hp =>
    simp only [] at h
    split at h
    case isTrue => exact absurd h (by simp)
    case isFalse hd1 =>
      split at h
      case h_2 => exact absurd h (by simp)
      case h_1 r2 heq =>
        split at h
        case isTrue => exact absurd h (by simp)
        case isFalse hd2 =>
          have hpair : (digitsToNat ((l.drop toChkLit.length).takeWhile Char.isDigit),
              digitsToNat (r2.takeWhile Char.isDigit)) = (r, t) := by
            injection h
          have hr : digitsToNat ((l.drop toChkLit.length).takeWhile Char.isDigit) = r :=
            congrArg Prod.fst hpair
          have ht : digitsToNat (r2.takeWhile Char.isDigit) = t :=
            congrArg Prod.snd hpair
          refine ⟨[], (l.drop toChkLit.length).takeWhile Char.isDigit,
              r2.takeWhile Char.isDigit, r2.dropWhile Char.isDigit, ?_, hd1,
              fun c hc => List.mem_takeWhile_imp hc, ?_,
              fun c hc => List.mem_takeWhile_imp hc, hr, ht⟩
          · have hl : l = l.take toChkLit.length ++ l.drop toChkLit.length :=
              (List.take_append_drop _ l).symm
            have hsplit : (l.drop toChkLit.length).takeWhile Char.isDigit
                ++ (l.drop toChkLit.length).dropWhile Char.isDigit
                = l.drop toChkLit.length := List.takeWhile_append_dropWhile _ _
            have hsplit2 : r2.takeWhile Char.isDigit ++ r2.dropWhile Char.isDigit = r2 :=
              List.takeWhile_append_dropWhile _ _
            rw [List.nil_append]
            calc l = l.take toChkLit.length ++ l.drop toChkLit.length := hl
              _ = toChkLit ++ l.drop toChkLit.length := by rw [hp]
              _ = toChkLit ++ ((l.drop toChkLit.length).takeWhile Char.isDigit
                    ++ (l.drop toChkLit.length).dropWhile Char.isDigit) := by rw [hsplit]
              _ = toChkLit ++ ((l.drop toChkLit.length).takeWhile Char.isDigit ++ '/' :: r2) := by
                    rw [heq]
              _ = toChkLit ++ ((l.drop toChkLit.length).takeWhile Char.isDigit
                    ++ '/' :: (r2.takeWhile Char.isDigit ++ r2.dropWhile Char.isDigit)) := by
                    rw [hsplit2]
              _ = _ := by simp [List.append_assoc]
          · exact hd2

theorem searchToChk_sound :
    ∀ {l : Str} {r t : Nat}, searchToChk l = some (r, t) → HasTok l r t := by
  intro l
  induction l with
  | nil => intro r t h; exact absurd h (by simp [searchToChk])
  | cons c rest ih =>
    intro r t h
    rw [searchToChk] at h
    rcases hm : matchToChkAt (c :: rest) with _ | v
    · rw [hm] at h
      obtain ⟨pre, d1, d2, post, heq, h1, h2, h3, h4, h5, h6⟩ := ih h
      exact ⟨c :: pre, d1, d2, post, by rw [heq]; simp, h1, h2, h3, h4, h5, h6⟩
    · rw [hm] at h
      cases h
      exact matchToChkAt_sound hm

theorem searchToChk_isSome_suffix :
    ∀ (pre l : Str), (matchToChkAt l).isSome = true →
      (searchToChk (pre ++ l)).isSome = true := by
  intro pre
  induction pre with
  | nil =>
    intro l h
    rcases l with _ | ⟨c, rest⟩
    · rw [show matchToChkAt [] = none from rfl] at h
      simp at h
    · rw [List.nil_append, searchToChk]
      rcases hm : matchToChkAt (c :: rest) with _ | v
      · rw [hm] at h; simp at h
      · rfl
  | cons a t ih =>
    intro l h
    rw [List.cons_append, searchToChk]
    rcases hm : matchToChkAt (a :: (t ++ l)) with _ | v
    · exact ih l h
    · rfl

theorem matchToChkAt_of_tok (d1 d2 post : Str)
    (h1 : d1 ≠ []) (h2 : ∀ c ∈ d1, c.isDigit = true)
    (h3 : d2 ≠ []) (h4 : ∀ c ∈ d2, c.isDigit = true) :
    (matchToChkAt (toChkLit ++ (d1 ++ '/' :: (d2 ++ post)))).isSome = true := by
  have htw : (d1 ++ '/' :: (d2 ++ post)).takeWhile Char.isDigit = d1 := by
    rw [takeWhile_append_of_all h2, List.takeWhile_cons, if_neg (by decide), List.append_nil]
  have hdw : (d1 ++ '/' :: (d2 ++ post)).dropWhile Char.isDigit = '/' :: (d2 ++ post) := by
    rw [dropWhile_append_of_all h2, List.dropWhile_cons, if_neg (by decide)]
  simp only [matchToChkAt, List.take_left, List.drop_left, htw, hdw, if_pos, if_neg h1,
    reduceIte]
  rcases d2 with _ | ⟨e, d2t⟩
  · exact absurd rfl h3
  · have he : Char.isDigit e = true := h4 e (by simp)
    rw [List.cons_append, List.takeWhile_cons, if_pos he]
    simp

/-- C4: whenever the leftmost-match scan finds a `to-chk=<remain>/<total>`
token the progress parser emits exactly the status
`progress: (total-remain)/total` (source literal `文件进度:`), and the
found pair corresponds to an actual token occurrence in the line;
conversely, when the scan finds nothing the line contains no such token
and no status update is emitted. -/
theorem progress_parse_spec (line : Str) :
    (∀ remain total, searchToChk line = some (remain, total) →
        parse_file_progress line = some (progressMsg ((total : Int) - remain) total)
        ∧ HasTok line remain total)
    ∧ (searchToChk line = none →
        parse_file_progress line = none ∧ ∀ remain total, ¬ HasTok line remain total) := by
  constructor
  · intro remain total h
    constructor
    · unfold parse_file_progress
      rw [h]
    · exact searchToChk_sound h
  · intro h
    constructor
    · unfold parse_file_progress
      rw [h]
    · intro remain total htok
      obtain ⟨pre, d1, d2, post, heq, h1, h2, h3, h4, _, _⟩ := htok
      have hm := matchToChkAt_of_tok d1 d2 post h1 h2 h3 h4
      have hs := searchToChk_isSome_suffix pre (toChkLit ++ (d1 ++ '/' :: (d2 ++ post))) hm
      have heq2 : line = pre ++ (toChkLit ++ (d1 ++ '/' :: (d2 ++ post))) := by
        rw [heq]; simp [List.append_assoc]
      rw [← heq2, h] at hs
      simp at hs

theorem progress_parse_spec_witness :
    parse_file_progress ("  1,234  56%  (xfr#3, to-chk=30/120)").data
        = some (progressMsg ((120 : Int) - 30) 120)
    ∧ HasTok ("  1,234  56%  (xfr#3, to-chk=30/120)").data 30 120 :=
  (progress_parse_spec ("  1,234  56%  (xfr#3, to-chk=30/120)").data).1 30 120 rfl

theorem pySplitWs_eq_cases (m : Nat) (l : Str) :
    pySplitWs m l
      = match m, l.dropWhile isPyWs with
        | _, [] => []
        | 0, c :: rest => [c :: rest]
        | m' + 1, c :: rest =>
          (c :: rest.takeWhile (fun x => ¬ isPyWs x))
            :: pySplitWs m' (rest.dropWhile (fun x => ¬ isPyWs x)) := by
  rw [pySplitWs.eq_def]

theorem pySplitWs_first_tok_ne_nil :
    ∀ (m : Nat) (l t : Str) (ts : List Str), pySplitWs m l = t :: ts → t ≠ [] := by
  intro m l t ts h
  rw [pySplitWs_eq_cases] at h
  rcases hd : l.dropWhile isPyWs with _ | ⟨c, rest⟩
  · rw [hd] at h
    cases m <;> simp at h
  · rw [hd] at h
    cases m with
    | zero =>
      injection h with h1 h2
      rw [← h1]
      simp
    | succ m' =>
      injection h with h1 h2
      rw [← h1]
      simp

theorem pySplitWs_length_le : ∀ (m : Nat) (l : Str), (pySplitWs m l).length ≤ m + 1 := by
  intro m
  induction m with
  | zero =>
    intro l
    rw [pySplitWs_eq_cases]
    rcases hd : l.dropWhile isPyWs with _ | ⟨c, rest⟩ <;> simp
  | succ m' ih =>
    intro l
    rw [pySplitWs_eq_cases]
    rcases hd : l.dropWhile isPyWs with _ | ⟨c, rest⟩
    · simp
    · show ((c :: rest.takeWhile fun x => ¬ isPyWs x)
          :: pySplitWs m' (rest.dropWhile fun x => ¬ isPyWs x)).length ≤ m' + 1 + 1
      rw [List.length_cons]
      have := ih (rest.dropWhile fun x => ¬ isPyWs x)
      omega

theorem length_filterMap_isSome {α β : Type} (f : α → Option β) :
    ∀ l : List α, (l.filterMap f).length = (l.filter (fun a => (f a).isSome)).length := by
  intro l
  induction l with
  | nil => rfl
  | cons a t ih =>
    rcases hf : f a with _ | b <;>
      simp [List.filterMap_cons, List.filter_cons, hf, ih]

theorem length_filter_and_split {α : Type} (q p : α → Bool) :
    ∀ l : List α,
      (l.filter (fun a => q a && p a)).length + (l.filter (fun a => q a && !(p a))).length
        = (l.filter q).length := by
  intro l
  induction l with
  | nil => rfl
  | cons a t ih =>
    rcases hq : q a <;> rcases hp : p a <;>
      simp [List.filter_cons, hq, hp] <;> omega

theorem parseLine_of_total {l : Str} (h : isTotalLine l = true) : parseLine l = none := by
  unfold parseLine
  rw [if_pos h]

theorem parseLine_none_iff (l : Str) :
    parseLine l = none ↔ (isTotalLine l = true ∨ (pySplitWs 7 l).length < 8) := by
  by_cases htot : isTotalLine l = true
  · simp [parseLine_of_total htot, htot]
  · have htot' : isTotalLine l = false := by
      rcases hb : isTotalLine l
      · rfl
      · exact absurd hb htot
    unfold parseLine
    rw [if_neg htot]
    rcases hts : pySplitWs 7 l with _
      | ⟨t1, _ | ⟨t2, _ | ⟨t3, _ | ⟨t4, _ | ⟨t5, _ | ⟨t6, _ | ⟨t7, _ | ⟨t8, _ | ⟨t9, rest⟩⟩⟩⟩⟩⟩⟩⟩⟩
    · simp [htot']
    · simp [htot']
    · simp [htot']
    · simp [htot']
    · simp [htot']
    · simp [htot']
    · simp [htot']
    · simp [htot']
    · rcases t1 with _ | ⟨c0, t1'⟩
      · have := pySplitWs_first_tok_ne_nil 7 l [] _ hts
        exact absurd rfl this
      · simp [htot']
    · have hle := pySplitWs_length_le 7 l
      rw [hts] at hle
      simp at hle

/-- C5: the listing parser skips lines beginning with `total`, splits
each remaining line into at most 8 whitespace fields (everything after
the 7th token is the name, verbatim), discards lines with fewer than 8
tokens, and takes each entry's type from the first character of the
line's permissions token; the entry count is the number of non-`total`
lines minus the malformed ones. -/
theorem parse_ls_spec (output : Str) :
    ((parse_ls_output output).length
      = ((linesOf output).filter (fun l => !(isTotalLine l))).length
        - ((linesOf output).filter (fun l => !(isTotalLine l) && (parseLine l).isNone)).length)
    ∧ (∀ l : Str, parseLine l = none ↔ (isTotalLine l = true ∨ (pySplitWs 7 l).length < 8))
    ∧ (∀ e ∈ parse_ls_output output, ∃ l ∈ linesOf output,
        isTotalLine l = false
        ∧ (∃ links, pySplitWs 7 l
            = [e.perms, links, e.user, e.group, e.size, e.date, e.time, e.name])
        ∧ e.perms.head? = some e.ftype) := by
  refine ⟨?_, fun l => parseLine_none_iff l, ?_⟩
  · have h1 : (parse_ls_output output).length
        = ((linesOf output).filter (fun a => (parseLine a).isSome)).length :=
      length_filterMap_isSome parseLine (linesOf output)
    have h2 : (linesOf output).filter (fun a => (parseLine a).isSome)
        = (linesOf output).filter (fun a => !(isTotalLine a) && (parseLine a).isSome) := by
      apply List.filter_congr
      intro a _
      rcases hb : isTotalLine a
      · simp [hb]
      · simp [hb, parseLine_of_total hb]
    have h3 : (linesOf output).filter (fun a => !(isTotalLine a) && (parseLine a).isNone)
        = (linesOf output).filter (fun a => !(isTotalLine a) && !((parseLine a).isSome)) := by
      apply List.filter_congr
      intro a _
      rcases hp : parseLine a with _ | e <;> simp [hp]
    have h4 : ((linesOf output).filter (fun a => !(isTotalLine a) && (parseLine a).isSome)).length
        + ((linesOf output).filter (fun a => !(isTotalLine a) && !((parseLine a).isSome))).length
        = ((linesOf output).filter (fun a => !(isTotalLine a))).length :=
      length_filter_and_split _ _ _
    rw [h1, h2, h3]
    omega
  · intro e he
    obtain ⟨l, hl, hpl⟩ := List.mem_filterMap.mp he
    have hnt : isTotalLine l = false := by
      rcases hb : isTotalLine l
      · rfl
      · rw [parseLine_of_total hb] at hpl
        exact absurd hpl (by simp)
    unfold parseLine at hpl
    rw [if_neg (by simp [hnt])] at hpl
    refine ⟨l, hl, hnt, ?_⟩
    rcases hts : pySplitWs 7 l with _
      | ⟨t1, _ | ⟨t2, _ | ⟨t3, _ | ⟨t4, _ | ⟨t5, _ | ⟨t6, _ | ⟨t7, _ | ⟨t8, _ | ⟨t9, rest⟩⟩⟩⟩⟩⟩⟩⟩⟩ <;>
      rw [hts] at hpl
    · simp at hpl
    · simp at hpl
    · simp at hpl
    · simp at hpl
    · simp at hpl
    · simp at hpl
    · simp at hpl
    · simp at hpl
    · rcases t1 with _ | ⟨c0, t1'⟩
      · simp at hpl
      · injection hpl with hinj
        subst hinj
        exact ⟨⟨t2, rfl⟩, rfl⟩
    · simp at hpl

theorem parse_ls_spec_witness :
    (parse_ls_output
        ("total 4\ndrwxr-xr-x 2 root root 4096 2024-01-01 10:00 my dir\nbadline").data).length
      = ((linesOf ("total 4\ndrwxr-xr-x 2 root root 4096 2024-01-01 10:00 my dir\nbadline").data).filter
          (fun l => !(isTotalLine l))).length
        - ((linesOf ("total 4\ndrwxr-xr-x 2 root root 4096 2024-01-01 10:00 my dir\nbadline").data).filter
          (fun l => !(isTotalLine l) && (parseLine l).isNone)).length :=
  (parse_ls_spec ("total 4\ndrwxr-xr-x 2 root root 4096 2024-01-01 10:00 my dir\nbadline").data).1

